import Mathlib

/-!
Verification of the maintenance-scheduling core of `maintenance_program.py`
(fleet maintenance: due detection, work-order lifecycle, inventory
reservation, failure-log MTBF).

Shallow embedding conventions:
* Python `float` readings (horometro, odometro, hours) are modelled as `ℚ`.
* `datetime.date` is modelled as `ℤ` (a day number); subtraction of dates
  yields `.days` directly as `ℤ` subtraction.
* `datetime.datetime` is modelled as `ℚ` (seconds since an epoch);
  `total_seconds()` of a difference is plain subtraction, and `.date()` is
  `⌊t / 86400⌋`.
* Python `dict` (insertion-ordered) is modelled as an association list;
  `d[k] = v` replaces the value at an existing key in place and appends a
  new key at the end, matching CPython semantics.
* `uuid.uuid4().hex` order ids are modelled by a fresh-id counter threaded
  through the scheduler state; `datetime.now()` clocks are explicit
  parameters.
-/

namespace Maint

/-- `dict.get(k)`-style lookup in an association list: first entry whose key
matches. -/
def dictGet (l : List (String × α)) (k : String) : Option α :=
  (l.find? fun p => p.1 == k).map Prod.snd

/-- `dict.get(k, d)`: lookup with default. -/
def dictGetD (l : List (String × α)) (k : String) (d : α) : α :=
  (dictGet l k).getD d

/-- `d[k] = v` on a Python dict: replace in place if the key is present,
append at the end otherwise. -/
def dictSet (l : List (String × α)) (k : String) (v : α) : List (String × α) :=
  if l.any (fun p => p.1 == k) then
    l.map fun p => if p.1 == k then (k, v) else p
  else
    l ++ [(k, v)]

/-- Round-half-to-even on a rational, the rounding used by Python's
`format(x, '.0f')`. -/
def roundHalfEven (q : ℚ) : ℤ :=
  let n : ℤ := ⌊q⌋
  if q - n > 1/2 then n + 1
  else if q - n < 1/2 then n
  else if n % 2 = 0 then n else n + 1

/-- Python `f"{x:.0f}"` on a (modelled) float. -/
def fmtF0 (q : ℚ) : String := toString (roundHalfEven q)

/-- `datetime.date()` of a timestamp: the day number containing it. -/
def dateOf (t : ℚ) : ℤ := ⌊t / 86400⌋

/-- `Component`: static maintenance specification. Intervals are
`Optional[int]` in the source. -/
structure Component where
  name : String
  criticidad : String
  hours_interval : Option ℤ
  km_interval : Option ℤ
  days_interval : Option ℤ
  deriving Repr, DecidableEq

/-- `ComponentRecord`: last-service state for one component on one
equipment. -/
structure ComponentRecord where
  component : Component
  last_service_date : ℤ
  last_service_hours : ℚ
  last_service_km : ℚ
  deriving Repr, DecidableEq

/-- The days-interval check of `ComponentRecord.is_due` (the last of the
three sequential checks). -/
def checkDays (rec : ComponentRecord) (current_date : ℤ) : Bool × String :=
  match rec.component.days_interval with
  | some iv =>
    let dd := current_date - rec.last_service_date
    if dd ≥ iv then
      (true, "Días alcanzados: " ++ toString dd ++ " días ≥ " ++ toString iv ++ " días")
    else (false, "")
  | none => (false, "")

/-- The kilometres check of `ComponentRecord.is_due`, falling through to the
days check. -/
def checkKm (rec : ComponentRecord) (current_date : ℤ) (current_km : ℚ) : Bool × String :=
  match rec.component.km_interval with
  | some iv =>
    let dk := current_km - rec.last_service_km
    if dk ≥ (iv : ℚ) then
      (true, "Kilómetros alcanzados: " ++ fmtF0 dk ++ " km ≥ " ++ toString iv ++ " km")
    else checkDays rec current_date
  | none => checkDays rec current_date

/-- `ComponentRecord.is_due`: hours first, then kilometres, then days,
returning on the first satisfied `delta ≥ interval`; `(false, "")` if no
defined interval is reached. -/
def ComponentRecord.is_due (rec : ComponentRecord) (current_date : ℤ)
    (current_hours current_km : ℚ) : Bool × String :=
  match rec.component.hours_interval with
  | some iv =>
    let dh := current_hours - rec.last_service_hours
    if dh ≥ (iv : ℚ) then
      (true, "Horas alcanzadas: " ++ fmtF0 dh ++ "h ≥ " ++ toString iv ++ "h")
    else checkKm rec current_date current_km
  | none => checkKm rec current_date current_km

/-- `Equipment`: one fleet unit; `components` is the dict from component
name to `ComponentRecord`. -/
structure Equipment where
  id : String
  description : String
  horometro : ℚ
  odometro : ℚ
  status : String
  components : List (String × ComponentRecord)
  deriving Repr, DecidableEq

/-- `WorkOrder`; ids are modelled as naturals issued by the scheduler's
fresh-id counter. -/
structure WorkOrder where
  equipment_id : String
  component_name : String
  due_date : ℤ
  reason : String
  status : String
  id : Nat
  created_at : ℚ
  completed_at : Option ℚ
  deriving Repr, DecidableEq

/-- `WorkOrder.mark_completed` with an explicit completion time. -/
def WorkOrder.mark_completed (o : WorkOrder) (t : ℚ) : WorkOrder :=
  { o with status := "completada", completed_at := some t }

/-- `Inventory`: part name ↦ (current stock, minimum stock), plus the
part-to-components mapping. -/
structure Inventory where
  stock : List (String × (ℤ × ℤ))
  part_mapping : List (String × List String)
  deriving Repr, DecidableEq

/-- `Inventory.add_part`. -/
def Inventory.add_part (inv : Inventory) (part : String) (initial_stock min_stock : ℤ)
    (fits : List String) : Inventory :=
  { inv with
    stock := dictSet inv.stock part (initial_stock, min_stock),
    part_mapping := dictSet inv.part_mapping part fits }

/-- `Inventory.reserve_part`: check-then-decrement; returns the flag and the
resulting inventory. -/
def Inventory.reserve_part (inv : Inventory) (part : String) (quantity : ℤ) :
    Bool × Inventory :=
  let cur := dictGetD inv.stock part (0, 0)
  if cur.1 ≥ quantity then
    (true, { inv with stock := dictSet inv.stock part (cur.1 - quantity, cur.2) })
  else (false, inv)

/-- `Inventory.get_stock`: current quantity, 0 if the part is unknown. -/
def Inventory.get_stock (inv : Inventory) (part : String) : ℤ :=
  (dictGetD inv.stock part (0, 0)).1

/-- The minimum-stock entry of a part (second slot of the stock pair). -/
def Inventory.min_stock (inv : Inventory) (part : String) : ℤ :=
  (dictGetD inv.stock part (0, 0)).2

/-- `Inventory.low_stock_alerts`: parts with stock at or below minimum. -/
def Inventory.low_stock_alerts (inv : Inventory) : List String :=
  (inv.stock.filter fun p => p.2.1 ≤ p.2.2).map Prod.fst

/-- The allowed-for-evaluation status test of `check_due_maintenance`:
`eq.status in ("operativo", "disponible", "en servicio")`. -/
def eligibleStatus (s : String) : Bool :=
  s == "operativo" || s == "disponible" || s == "en servicio"

/-- The per-order test of `check_due_maintenance`'s dedup scan: same
equipment, same component, status `"pendiente"`. -/
def pendPred (eqId name : String) (o : WorkOrder) : Bool :=
  o.equipment_id == eqId && o.component_name == name && o.status == "pendiente"

/-- The dedup test of `check_due_maintenance`: is there already an order for
this (equipment, component) with status `"pendiente"`? -/
def hasPendingFor (orders : List WorkOrder) (eqId name : String) : Bool :=
  orders.any (pendPred eqId name)

/-- The `WorkOrder(eq.id, name, reference_date, reason)` constructor call of
`check_due_maintenance`, with the defaulted fields made explicit. -/
def mkOrder (eqId name : String) (dueDate : ℤ) (reason : String)
    (oid : Nat) (now : ℚ) : WorkOrder :=
  { equipment_id := eqId, component_name := name, due_date := dueDate,
    reason := reason, status := "pendiente", id := oid, created_at := now,
    completed_at := none }

/-- The body of `check_due_maintenance`'s inner loop, for one
`ComponentRecord`. The accumulator is (pending orders, orders created in
this call, next fresh id). -/
def recStep (refDate : ℤ) (now : ℚ) (eq : Equipment)
    (acc : List WorkOrder × List WorkOrder × Nat) (rec : ComponentRecord) :
    List WorkOrder × List WorkOrder × Nat :=
  let r := rec.is_due refDate eq.horometro eq.odometro
  if r.1 then
    if hasPendingFor acc.1 eq.id rec.component.name then acc
    else
      let o := mkOrder eq.id rec.component.name refDate r.2 acc.2.2 now
      (acc.1 ++ [o], acc.2.1 ++ [o], acc.2.2 + 1)
  else acc

/-- The body of `check_due_maintenance`'s outer loop, for one `Equipment`. -/
def eqStep (refDate : ℤ) (now : ℚ)
    (acc : List WorkOrder × List WorkOrder × Nat) (eq : Equipment) :
    List WorkOrder × List WorkOrder × Nat :=
  if eligibleStatus eq.status then
    (eq.components.map Prod.snd).foldl (recStep refDate now eq) acc
  else acc

/-- `Scheduler` state: the equipment registry dict, the pending-order list,
and the fresh-id counter standing in for `uuid4`. -/
structure Scheduler where
  equipment_registry : List (String × Equipment)
  pending_orders : List WorkOrder
  nextId : Nat
  deriving Repr, DecidableEq

/-- `Scheduler.check_due_maintenance`: scan all equipment values, create
deduplicated work orders for due components, return the orders created in
this call together with the updated state. -/
def Scheduler.check_due_maintenance (s : Scheduler) (refDate : ℤ) (now : ℚ) :
    List WorkOrder × Scheduler :=
  let r := (s.equipment_registry.map Prod.snd).foldl (eqStep refDate now)
    (s.pending_orders, [], s.nextId)
  (r.2.1, { s with pending_orders := r.1, nextId := r.2.2 })

/-- The loop of `Scheduler.complete_order`: find the first order with the
given id, mark it completed, then rebaseline the component record via the
two dict lookups `equipment_registry[order.equipment_id]` and
`equipment.components[order.component_name]`. Either lookup failing raises
`KeyError` — modelled as `Except.error` — with the order already mutated.
Returns (result, pending orders, equipment registry). -/
def completeLoop (t : ℚ) (oid : Nat) (registry : List (String × Equipment)) :
    List WorkOrder → Except String Unit × List WorkOrder × List (String × Equipment)
  | [] => (Except.ok (), [], registry)
  | o :: rest =>
    if o.id = oid then
      let o' := o.mark_completed t
      match dictGet registry o.equipment_id with
      | none => (Except.error "KeyError", o' :: rest, registry)
      | some eq =>
        match dictGet eq.components o.component_name with
        | none => (Except.error "KeyError", o' :: rest, registry)
        | some rec =>
          let rec' := { rec with
            last_service_date := dateOf t,
            last_service_hours := eq.horometro,
            last_service_km := eq.odometro }
          let eq' := { eq with components := dictSet eq.components o.component_name rec' }
          (Except.ok (), o' :: rest, dictSet registry o.equipment_id eq')
    else
      let r := completeLoop t oid registry rest
      (r.1, o :: r.2.1, r.2.2)

/-- `Scheduler.complete_order` with an explicit completion time `t` standing
in for `datetime.now()`. -/
def Scheduler.complete_order (s : Scheduler) (t : ℚ) (oid : Nat) :
    Except String Unit × Scheduler :=
  let r := completeLoop t oid s.equipment_registry s.pending_orders
  (r.1, { s with pending_orders := r.2.1, equipment_registry := r.2.2 })

/-- One failure-log entry `(timestamp, equipment_id, component_name,
description, repair_time_hours)`. -/
structure FailureEntry where
  timestamp : ℚ
  equipment_id : String
  component_name : String
  description : String
  repair_time_hours : ℚ
  deriving Repr, DecidableEq

/-- `FailureLog`: ordered list of entries. -/
structure FailureLog where
  entries : List FailureEntry
  deriving Repr, DecidableEq

/-- `FailureLog.log_failure` with an explicit timestamp for
`datetime.now()`. -/
def FailureLog.log_failure (log : FailureLog) (ts : ℚ)
    (eqId name descr : String) (repairHours : ℚ) : FailureLog :=
  ⟨log.entries ++ [⟨ts, eqId, name, descr, repairHours⟩]⟩

/-- Python `==` between the stored `str` component name and the
`component_name` argument, which callers in the repository also pass as
`None`: a string never equals `None`. -/
def pyEqComp (stored : String) (arg : Option String) : Bool :=
  match arg with
  | some s => stored == s
  | none => false

/-- The sum `Σ (times[i] - times[i-1]).total_seconds()/3600` over
consecutive pairs of the (sorted) timestamp list. -/
def consecDeltaSum : List ℚ → ℚ
  | a :: b :: rest => (b - a) / 3600 + consecDeltaSum (b :: rest)
  | _ => 0

/-- `FailureLog.calculate_mtbf`: filter entries for the equipment/component,
`None` below two matches, else mean of consecutive sorted-timestamp deltas
in hours. -/
def FailureLog.calculate_mtbf (log : FailureLog) (eqId : String)
    (comp : Option String) : Option ℚ :=
  let times := (log.entries.filter fun e =>
    e.equipment_id == eqId && pyEqComp e.component_name comp).map (·.timestamp)
  if times.length < 2 then none
  else
    let sorted := times.insertionSort (· ≤ ·)
    some (consecDeltaSum sorted / (times.length - 1))

/-- `FailureLog.calculate_mttr`: mean repair time over matching entries,
`None` with zero matches. -/
def FailureLog.calculate_mttr (log : FailureLog) (eqId : String)
    (comp : Option String) : Option ℚ :=
  let reps := (log.entries.filter fun e =>
    e.equipment_id == eqId && pyEqComp e.component_name comp).map (·.repair_time_hours)
  if reps.isEmpty then none
  else some (reps.sum / reps.length)

/-- Spec-side MTBF ("filter matching entries, sort by timestamp ascending,
compute mean of consecutive-pair time deltas in hours; undefined below 2
matching entries"): deltas taken by zipping the sorted list with its tail. -/
def mtbfSpec (log : FailureLog) (eqId : String) (comp : Option String) : Option ℚ :=
  let times := (log.entries.filter fun e =>
    e.equipment_id == eqId && pyEqComp e.component_name comp).map (·.timestamp)
  let sorted := times.insertionSort (· ≤ ·)
  let deltas := (sorted.zip sorted.tail).map fun p => (p.2 - p.1) / 3600
  if times.length < 2 then none
  else some (deltas.sum / deltas.length)

/-- "At most one pending order per (equipment, component) pair." -/
def pendingUnique (orders : List WorkOrder) : Prop :=
  ∀ e n, (orders.filter (pendPred e n)).length ≤ 1

/-! ### Concrete states used as witnesses and counterexamples -/

/-- A component with only an hours interval of 500 (as in §8 of the spec). -/
def comp500 : Component := ⟨"Amortiguadores", "alta", some 500, none, none⟩

/-- A record for `comp500` with `last_service_hours = 0`. -/
def rec500 : ComponentRecord := ⟨comp500, 0, 0, 0⟩

/-- Inventory holding part "X" with stock 3, minimum 2. -/
def invX : Inventory := ⟨[("X", (3, 2))], []⟩

/-- Inventory whose part "X" was given a negative stock through `add_part`. -/
def invNeg : Inventory := ⟨[("X", (-5, 0))], []⟩

/-- Three failures of (E1, Motor) at t0, t0+10h, t0+20h (timestamps in
seconds). -/
def log3 : FailureLog :=
  ⟨[⟨0, "E1", "Motor", "f1", 1⟩, ⟨36000, "E1", "Motor", "f2", 2⟩,
    ⟨72000, "E1", "Motor", "f3", 3⟩]⟩

/-- Two failures on E1 with different component names. -/
def log9 : FailureLog :=
  ⟨[⟨0, "E1", "Motor", "f1", 1⟩, ⟨36000, "E1", "Frenos", "f2", 2⟩]⟩

/-- Equipment E1 at horometro 550 with `rec500` registered. -/
def eq550 : Equipment :=
  ⟨"E1", "Tracto", 550, 0, "operativo", [("Amortiguadores", rec500)]⟩

/-- A scheduler over `eq550` with no orders yet. -/
def sched1 : Scheduler := ⟨[("E1", eq550)], [], 0⟩

/-- A pending order (id 0) for (E1, Amortiguadores). -/
def order0 : WorkOrder := ⟨"E1", "Amortiguadores", 0, "r", "pendiente", 0, 0, none⟩

/-- A scheduler over `eq550` with `order0` pending. -/
def sched4 : Scheduler := ⟨[("E1", eq550)], [order0], 1⟩

/-- A pending order for component "X", which is not registered on E1. -/
def orderX : WorkOrder := ⟨"E1", "X", 0, "r", "pendiente", 0, 0, none⟩

/-- Equipment E1 with no registered components. -/
def eqNoX : Equipment := ⟨"E1", "Tracto", 100, 200, "operativo", []⟩

/-- A scheduler whose pending order names an unregistered component. -/
def sched8 : Scheduler := ⟨[("E1", eqNoX)], [orderX], 5⟩

/-! ### Association-list (Python dict) lemmas -/

theorem find_map_replace_self (k : String) (v : α) :
    ∀ l : List (String × α), l.any (fun p => p.1 == k) = true →
    (l.map fun p => if p.1 == k then (k, v) else p).find? (fun p => p.1 == k)
      = some (k, v) := by
  intro l
  induction l with
  | nil => simp
  | cons q rest ih =>
    intro hany
    by_cases hq : (q.1 == k) = true
    · rw [List.map_cons, if_pos hq]
      simp [List.find?_cons]
    · have hq' : (q.1 == k) = false := by simpa using hq
      have hrest : rest.any (fun p => p.1 == k) = true := by
        simpa [List.any_cons, hq'] using hany
      rw [List.map_cons, if_neg hq]
      simp only [List.find?_cons, hq']
      exact ih hrest

theorem find_map_replace_ne (k k' : String) (hne : (k == k') = false) (v : α) :
    ∀ l : List (String × α),
    (l.map fun p => if p.1 == k then (k, v) else p).find? (fun p => p.1 == k')
      = l.find? (fun p => p.1 == k') := by
  intro l
  induction l with
  | nil => rfl
  | cons q rest ih =>
    by_cases hq : (q.1 == k) = true
    · have hq1 : q.1 = k := by simpa using hq
      have hqk : (q.1 == k') = false := by rw [hq1]; exact hne
      rw [List.map_cons, if_pos hq]
      simp only [List.find?_cons, hne, hqk]
      exact ih
    · rw [List.map_cons, if_neg hq]
      by_cases hq2 : (q.1 == k') = true
      · simp only [List.find?_cons, hq2]
      · have hq2' : (q.1 == k') = false := by simpa using hq2
        simp only [List.find?_cons, hq2']
        exact ih

theorem dictGet_set_self (l : List (String × α)) (k : String) (v : α) :
    dictGet (dictSet l k v) k = some v := by
  unfold dictSet
  split
  · rename_i hany
    unfold dictGet
    rw [find_map_replace_self k v l hany]
    rfl
  · unfold dictGet
    rw [List.find?_append]
    rename_i hany
    have hnone : l.find? (fun p => p.1 == k) = none := by
      rw [List.find?_eq_none]
      intro x hx
      rw [List.any_eq_true] at hany
      push_neg at hany
      simpa using hany x hx
    simp [hnone]

theorem dictGet_set_ne (l : List (String × α)) (k : String) (v : α) (k' : String)
    (h : k' ≠ k) : dictGet (dictSet l k v) k' = dictGet l k' := by
  have hkk : (k == k') = false := by
    rw [beq_eq_false_iff_ne]
    exact fun hk => h hk.symm
  unfold dictSet
  split
  · unfold dictGet
    rw [find_map_replace_ne k k' hkk v l]
  · unfold dictGet
    rw [List.find?_append]
    have h1 : List.find? (fun p => p.1 == k') [(k, v)] = none := by
      simp [List.find?, hkk]
    rw [h1]
    cases l.find? (fun p => p.1 == k') <;> simp

/-! ### MTBF helper lemmas -/

theorem consecDeltaSum_eq_zip (l : List ℚ) :
    consecDeltaSum l = ((l.zip l.tail).map fun p => (p.2 - p.1) / 3600).sum := by
  induction l with
  | nil => rfl
  | cons a t ih =>
    cases t with
    | nil => rfl
    | cons b r =>
      simp only [consecDeltaSum, List.tail_cons, List.zip_cons_cons, List.map_cons,
        List.sum_cons]
      rw [ih]
      simp

theorem zip_tail_length (l : List ℚ) : (l.zip l.tail).length = l.length - 1 := by
  rw [List.length_zip, List.length_tail]
  exact Nat.min_eq_right (Nat.sub_le _ _)

/-! ### Claim theorems -/

/-- C1: `is_due` checks hours, then kilometres, then days, returning
`(true, reason)` on the first dimension whose defined interval satisfies
`delta ≥ interval` (the reason naming the delta and the threshold); absent
intervals are skipped; if no defined threshold is reached it returns
`(false, "")`. With `hours_interval = 500` and `last_service_hours = 0`, a
reading of 499 is not due while 500 is due with a reason naming 500. -/
theorem is_due_priority_thresholds :
    (∀ (rec : ComponentRecord) (d : ℤ) (h k : ℚ) (iv : ℤ),
      rec.component.hours_interval = some iv →
      (iv : ℚ) ≤ h - rec.last_service_hours →
      rec.is_due d h k = (true,
        "Horas alcanzadas: " ++ fmtF0 (h - rec.last_service_hours) ++ "h ≥ "
          ++ toString iv ++ "h"))
  ∧ (∀ (rec : ComponentRecord) (d : ℤ) (h k : ℚ) (iv : ℤ),
      (∀ ivh, rec.component.hours_interval = some ivh →
        h - rec.last_service_hours < (ivh : ℚ)) →
      rec.component.km_interval = some iv →
      (iv : ℚ) ≤ k - rec.last_service_km →
      rec.is_due d h k = (true,
        "Kilómetros alcanzados: " ++ fmtF0 (k - rec.last_service_km) ++ " km ≥ "
          ++ toString iv ++ " km"))
  ∧ (∀ (rec : ComponentRecord) (d : ℤ) (h k : ℚ) (iv : ℤ),
      (∀ ivh, rec.component.hours_interval = some ivh →
        h - rec.last_service_hours < (ivh : ℚ)) →
      (∀ ivk, rec.component.km_interval = some ivk →
        k - rec.last_service_km < (ivk : ℚ)) →
      rec.component.days_interval = some iv →
      iv ≤ d - rec.last_service_date →
      rec.is_due d h k = (true,
        "Días alcanzados: " ++ toString (d - rec.last_service_date) ++ " días ≥ "
          ++ toString iv ++ " días"))
  ∧ (∀ (rec : ComponentRecord) (d : ℤ) (h k : ℚ),
      (∀ ivh, rec.component.hours_interval = some ivh →
        h - rec.last_service_hours < (ivh : ℚ)) →
      (∀ ivk, rec.component.km_interval = some ivk →
        k - rec.last_service_km < (ivk : ℚ)) →
      (∀ ivd, rec.component.days_interval = some ivd →
        d - rec.last_service_date < ivd) →
      rec.is_due d h k = (false, ""))
  ∧ (∀ (d : ℤ) (k : ℚ), rec500.is_due d 499 k = (false, ""))
  ∧ (∀ (d : ℤ) (k : ℚ), rec500.is_due d 500 k
      = (true, "Horas alcanzadas: 500h ≥ 500h")) := by
  refine ⟨?_, ?_, ?_, ?_, ?_, ?_⟩
  · intro rec d h k iv hiv hge
    simp [ComponentRecord.is_due, hiv, hge]
  · intro rec d h k iv hno hkm hge
    have hckm : checkKm rec d k = (true,
        "Kilómetros alcanzados: " ++ fmtF0 (k - rec.last_service_km) ++ " km ≥ "
          ++ toString iv ++ " km") := by
      simp [checkKm, hkm, hge]
    cases hh : rec.component.hours_interval with
    | none => simp [ComponentRecord.is_due, hh, hckm]
    | some ivh =>
      have hlt := hno ivh hh
      simp [ComponentRecord.is_due, hh, not_le.mpr hlt, hckm]
  · intro rec d h k iv hnoH hnoK hdays hge
    have hcd : checkDays rec d = (true,
        "Días alcanzados: " ++ toString (d - rec.last_service_date) ++ " días ≥ "
          ++ toString iv ++ " días") := by
      simp [checkDays, hdays, hge]
    have hckm : checkKm rec d k = _ := rfl
    have hkmres : checkKm rec d k = (true,
        "Días alcanzados: " ++ toString (d - rec.last_service_date) ++ " días ≥ "
          ++ toString iv ++ " días") := by
      cases hk : rec.component.km_interval with
      | none => simp [checkKm, hk, hcd]
      | some ivk =>
        have hlt := hnoK ivk hk
        simp [checkKm, hk, not_le.mpr hlt, hcd]
    cases hh : rec.component.hours_interval with
    | none => simp [ComponentRecord.is_due, hh, hkmres]
    | some ivh =>
      have hlt := hnoH ivh hh
      simp [ComponentRecord.is_due, hh, not_le.mpr hlt, hkmres]
  · intro rec d h k hnoH hnoK hnoD
    have hcd : checkDays rec d = (false, "") := by
      cases hdd : rec.component.days_interval with
      | none => simp [checkDays, hdd]
      | some ivd =>
        have hlt := hnoD ivd hdd
        simp [checkDays, hdd, not_le.mpr hlt]
    have hkmres : checkKm rec d k = (false, "") := by
      cases hk : rec.component.km_interval with
      | none => simp [checkKm, hk, hcd]
      | some ivk =>
        have hlt := hnoK ivk hk
        simp [checkKm, hk, not_le.mpr hlt, hcd]
    cases hh : rec.component.hours_interval with
    | none => simp [ComponentRecord.is_due, hh, hkmres]
    | some ivh =>
      have hlt := hnoH ivh hh
      simp [ComponentRecord.is_due, hh, not_le.mpr hlt, hkmres]
  · intro d k
    have hlt : ¬ (((500 : ℤ) : ℚ) ≤ (499 : ℚ) - (0 : ℚ)) := by norm_num
    simp [ComponentRecord.is_due, checkKm, checkDays, rec500, comp500, hlt]
    norm_num
  · intro d k
    have hge : (((500 : ℤ) : ℚ) ≤ (500 : ℚ) - (0 : ℚ)) := by norm_num
    have h1 : rec500.is_due d 500 k = (true,
        "Horas alcanzadas: " ++ fmtF0 ((500 : ℚ) - (0 : ℚ)) ++ "h ≥ "
          ++ toString (500 : ℤ) ++ "h") := by
      simp [ComponentRecord.is_due, rec500, comp500, hge]
    have h2 : fmtF0 ((500 : ℚ) - (0 : ℚ)) = "500" := by
      norm_num [fmtF0, roundHalfEven]
      decide
    rw [h1, h2]
    decide

/-- Witness for C1: the theorem applied to `rec500` at reading 500. -/
theorem is_due_priority_thresholds_witness :
    rec500.is_due 0 500 0 = (true,
      "Horas alcanzadas: " ++ fmtF0 ((500 : ℚ) - rec500.last_service_hours)
        ++ "h ≥ " ++ toString (500 : ℤ) ++ "h") :=
  is_due_priority_thresholds.1 rec500 0 500 0 500 rfl (by norm_num [rec500])

/-- C5: for quantity `q ≥ 1`, `reserve_part` returns false and leaves the
inventory completely unchanged when current stock (0 for an unknown part)
is below `q`; otherwise it returns true, the part's stock drops by exactly
`q`, and its minimum and all other entries are untouched. -/
theorem reserve_part_spec (inv : Inventory) (part : String) (q : ℤ)
    (hq : 1 ≤ q) :
    (inv.get_stock part < q → inv.reserve_part part q = (false, inv))
  ∧ (q ≤ inv.get_stock part →
      (inv.reserve_part part q).1 = true
      ∧ (inv.reserve_part part q).2.get_stock part = inv.get_stock part - q
      ∧ (inv.reserve_part part q).2.min_stock part = inv.min_stock part
      ∧ (∀ p, p ≠ part →
          dictGet (inv.reserve_part part q).2.stock p = dictGet inv.stock p)
      ∧ (inv.reserve_part part q).2.part_mapping = inv.part_mapping) := by
  constructor
  · intro hlt
    unfold Inventory.get_stock at hlt
    unfold Inventory.reserve_part
    rw [if_neg (not_le.mpr hlt)]
  · intro hge
    unfold Inventory.get_stock at hge
    refine ⟨?_, ?_, ?_, ?_, ?_⟩
    · unfold Inventory.reserve_part
      rw [if_pos hge]
    · unfold Inventory.reserve_part
      rw [if_pos hge]
      unfold Inventory.get_stock dictGetD
      rw [dictGet_set_self]
      rfl
    · unfold Inventory.reserve_part
      rw [if_pos hge]
      unfold Inventory.min_stock dictGetD
      rw [dictGet_set_self]
      rfl
    · intro p hp
      unfold Inventory.reserve_part
      rw [if_pos hge]
      exact dictGet_set_ne inv.stock part _ p hp
    · unfold Inventory.reserve_part
      rw [if_pos hge]

/-- Witness for C5: reserving 5 of part "X" with stock 3 fails and leaves
the inventory unchanged. -/
theorem reserve_part_spec_witness :
    invX.get_stock "X" < 5 ∧ invX.reserve_part "X" 5 = (false, invX) :=
  ⟨by decide, (reserve_part_spec invX "X" 5 (by decide)).1 (by decide)⟩

/-- C10 counterexample: `reserve_part` with a non-positive quantity does
not always return true — a part whose recorded stock is negative (reachable
through `add_part` with a negative initial stock) makes the guard fail, so
`reserve_part "X" (-1)` returns false on stock −5. -/
theorem reserve_part_nonpos_cex :
    (-1 : ℤ) ≤ 0 ∧ invNeg.reserve_part "X" (-1) = (false, invNeg) := by
  constructor
  · decide
  · unfold Inventory.reserve_part
    rw [if_neg (by decide)]

/-- C10 amended: for any part whose current stock is non-negative (always
the case for an unknown part, whose stock reads 0) and any quantity
`q ≤ 0`, `reserve_part` returns true and writes back `stock − q`, so a
negative quantity strictly increases the recorded stock, and an unknown
part gets a fresh entry `(−q, 0)` with minimum 0. -/
theorem reserve_part_nonpos (inv : Inventory) (part : String) (q : ℤ)
    (hq : q ≤ 0) (hs : 0 ≤ inv.get_stock part) :
    (inv.reserve_part part q).1 = true
  ∧ (inv.reserve_part part q).2.get_stock part = inv.get_stock part - q
  ∧ (q < 0 → inv.get_stock part < (inv.reserve_part part q).2.get_stock part)
  ∧ (dictGet inv.stock part = none →
      dictGet (inv.reserve_part part q).2.stock part = some (-q, 0)) := by
  have hge : q ≤ (dictGetD inv.stock part (0, 0)).1 := le_trans hq hs
  have hstock : (inv.reserve_part part q).2.get_stock part
      = inv.get_stock part - q := by
    unfold Inventory.reserve_part
    rw [if_pos hge]
    unfold Inventory.get_stock dictGetD
    rw [dictGet_set_self]
    rfl
  refine ⟨?_, hstock, ?_, ?_⟩
  · unfold Inventory.reserve_part
    rw [if_pos hge]
  · intro hneg
    rw [hstock]
    omega
  · intro hnone
    have hcur : dictGetD inv.stock part ((0 : ℤ), (0 : ℤ)) = ((0 : ℤ), (0 : ℤ)) := by
      unfold dictGetD
      rw [hnone]
      rfl
    unfold Inventory.reserve_part
    rw [if_pos hge]
    rw [dictGet_set_self, hcur]
    norm_num

/-- Witness for C10 amended: reserving −3 of the unknown part "Z" succeeds,
raises its recorded stock from 0 to 3, and creates the entry (3, 0). -/
theorem reserve_part_nonpos_witness :
    (invX.reserve_part "Z" (-3)).1 = true
  ∧ (invX.reserve_part "Z" (-3)).2.get_stock "Z" = invX.get_stock "Z" - (-3)
  ∧ ((-3 : ℤ) < 0 → invX.get_stock "Z" < (invX.reserve_part "Z" (-3)).2.get_stock "Z")
  ∧ (dictGet invX.stock "Z" = none →
      dictGet (invX.reserve_part "Z" (-3)).2.stock "Z" = some (-(-3), 0)) :=
  reserve_part_nonpos invX "Z" (-3) (by decide) (by decide)

/-- C9: `calculate_mtbf` with the `None` wildcard never aggregates — the
stored component names are strings and never equal `None`, so the filter is
empty and the result is always `none`, even with two failures logged for
the equipment. -/
theorem mtbf_wildcard_none :
    (∀ (log : FailureLog) (e : String), log.calculate_mtbf e none = none)
  ∧ (log9.entries.filter fun en => en.equipment_id == "E1").length = 2
  ∧ log9.calculate_mtbf "E1" none = none := by
  have hgen : ∀ (log : FailureLog) (e : String), log.calculate_mtbf e none = none := by
    intro log e
    unfold FailureLog.calculate_mtbf
    simp [pyEqComp]
  exact ⟨hgen, by decide, hgen log9 "E1"⟩

/-- C6: `calculate_mtbf` returns `none` below two matching entries and
otherwise the mean of the consecutive-pair time deltas (in hours) of the
ascending-sorted matching timestamps; for failures at t0, t0+10h, t0+20h it
returns exactly 10. -/
theorem mtbf_spec_and_example :
    (∀ (log : FailureLog) (e : String) (c : Option String),
      log.calculate_mtbf e c = mtbfSpec log e c)
  ∧ log3.calculate_mtbf "E1" (some "Motor") = some 10 := by
  constructor
  · intro log e c
    have key : ∀ times : List ℚ,
        (if times.length < 2 then none else
          some (consecDeltaSum (times.insertionSort (· ≤ ·)) / ((times.length : ℚ) - 1)))
        = (if times.length < 2 then none else
          some ((((times.insertionSort (· ≤ ·)).zip
              (times.insertionSort (· ≤ ·)).tail).map fun p => (p.2 - p.1) / 3600).sum
            / ((((times.insertionSort (· ≤ ·)).zip
              (times.insertionSort (· ≤ ·)).tail).map fun p => (p.2 - p.1) / 3600).length : ℚ))) := by
      intro times
      by_cases hlen : times.length < 2
      · rw [if_pos hlen, if_pos hlen]
      · rw [if_neg hlen, if_neg hlen]
        have hsortlen : (times.insertionSort (· ≤ ·)).length = times.length :=
          (List.perm_insertionSort _ _).length_eq
        have hmaplen : (((times.insertionSort (· ≤ ·)).zip
            (times.insertionSort (· ≤ ·)).tail).map fun p => (p.2 - p.1) / 3600).length
            = times.length - 1 := by
          rw [List.length_map, zip_tail_length, hsortlen]
        have h2 : 2 ≤ times.length := not_lt.mp hlen
        have h1 : 1 ≤ times.length := le_trans (by norm_num) h2
        rw [consecDeltaSum_eq_zip, hmaplen, Nat.cast_sub h1, Nat.cast_one]
    exact key ((log.entries.filter fun en =>
      en.equipment_id == e && pyEqComp en.component_name c).map (·.timestamp))
  · have hts : ((log3.entries.filter fun en =>
        en.equipment_id == "E1" && pyEqComp en.component_name (some "Motor")).map
          (·.timestamp)) = [0, 36000, 72000] := by
      simp [log3, pyEqComp]
    simp only [FailureLog.calculate_mtbf]
    rw [hts]
    rw [if_neg (by norm_num)]
    have hsort : ([0, 36000, 72000] : List ℚ).insertionSort (· ≤ ·)
        = [0, 36000, 72000] := by
      norm_num [List.insertionSort, List.orderedInsert]
    rw [hsort]
    norm_num [consecDeltaSum]

/-! ### `complete_order` loop lemmas -/

theorem completeLoop_not_found (t : ℚ) (oid : Nat)
    (reg : List (String × Equipment)) :
    ∀ pending : List WorkOrder, (∀ o ∈ pending, o.id ≠ oid) →
    completeLoop t oid reg pending = (Except.ok (), pending, reg) := by
  intro pending
  induction pending with
  | nil => intro _; rfl
  | cons o rest ih =>
    intro h
    have ho : o.id ≠ oid := h o (List.mem_cons_self o rest)
    simp only [completeLoop, if_neg ho]
    rw [ih fun p hp => h p (List.mem_cons_of_mem o hp)]

theorem completeLoop_found (t : ℚ) (oid : Nat) (reg : List (String × Equipment))
    (o : WorkOrder) (post : List WorkOrder) (eqv : Equipment)
    (rec : ComponentRecord) (ho : o.id = oid)
    (heq : dictGet reg o.equipment_id = some eqv)
    (hrec : dictGet eqv.components o.component_name = some rec) :
    ∀ pre : List WorkOrder, (∀ p ∈ pre, p.id ≠ oid) →
    completeLoop t oid reg (pre ++ o :: post)
      = (Except.ok (), pre ++ o.mark_completed t :: post,
         dictSet reg o.equipment_id
           ⟨eqv.id, eqv.description, eqv.horometro, eqv.odometro, eqv.status,
            dictSet eqv.components o.component_name
              ⟨rec.component, dateOf t, eqv.horometro, eqv.odometro⟩⟩) := by
  intro pre
  induction pre with
  | nil =>
    intro _
    simp only [List.nil_append, completeLoop, if_pos ho, heq, hrec]
  | cons p pre' ih =>
    intro h
    have hp : p.id ≠ oid := h p (List.mem_cons_self p pre')
    simp only [List.cons_append, completeLoop, if_neg hp, List.append_eq]
    rw [ih fun x hx => h x (List.mem_cons_of_mem p hx)]

theorem completeLoop_keyerror (t : ℚ) (oid : Nat)
    (reg : List (String × Equipment)) (o : WorkOrder) (post : List WorkOrder)
    (ho : o.id = oid)
    (hmiss : dictGet reg o.equipment_id = none
      ∨ ∃ eqv, dictGet reg o.equipment_id = some eqv
          ∧ dictGet eqv.components o.component_name = none) :
    ∀ pre : List WorkOrder, (∀ p ∈ pre, p.id ≠ oid) →
    completeLoop t oid reg (pre ++ o :: post)
      = (Except.error "KeyError", pre ++ o.mark_completed t :: post, reg) := by
  intro pre
  induction pre with
  | nil =>
    intro _
    rcases hmiss with hnone | ⟨eqv, heq, hnone⟩
    · simp only [List.nil_append, completeLoop, if_pos ho, hnone]
    · simp only [List.nil_append, completeLoop, if_pos ho, heq, hnone]
  | cons p pre' ih =>
    intro h
    have hp : p.id ≠ oid := h p (List.mem_cons_self p pre')
    simp only [List.cons_append, completeLoop, if_neg hp, List.append_eq]
    rw [ih fun x hx => h x (List.mem_cons_of_mem p hx)]

/-- C7: `complete_order` with an id matching no order in the pending
collection is a silent no-op: it returns normally and the whole scheduler
state — orders, equipment, registry — is unchanged. -/
theorem complete_order_unknown_id (s : Scheduler) (t : ℚ) (oid : Nat)
    (h : ∀ o ∈ s.pending_orders, o.id ≠ oid) :
    s.complete_order t oid = (Except.ok (), s) := by
  simp only [Scheduler.complete_order]
  rw [completeLoop_not_found t oid s.equipment_registry s.pending_orders h]

/-- Witness for C7: completing unknown id 99 on `sched4` changes nothing. -/
theorem complete_order_unknown_id_witness :
    sched4.complete_order 0 99 = (Except.ok (), sched4) :=
  complete_order_unknown_id sched4 0 99 (by decide)

/-- C4: completing a pending order whose equipment and component are
registered marks it completed with the completion time and rebaselines the
component record to the equipment's readings at completion time. -/
theorem complete_order_rebaselines (s : Scheduler) (t : ℚ) (oid : Nat)
    (pre post : List WorkOrder) (o : WorkOrder) (eqv : Equipment)
    (rec : ComponentRecord)
    (hsplit : s.pending_orders = pre ++ o :: post)
    (hpre : ∀ p ∈ pre, p.id ≠ oid)
    (ho : o.id = oid)
    (heq : dictGet s.equipment_registry o.equipment_id = some eqv)
    (hrec : dictGet eqv.components o.component_name = some rec) :
    (s.complete_order t oid).1 = Except.ok ()
  ∧ (s.complete_order t oid).2.pending_orders
      = pre ++ { o with status := "completada", completed_at := some t } :: post
  ∧ ∃ eqv',
      dictGet (s.complete_order t oid).2.equipment_registry o.equipment_id
        = some eqv'
      ∧ dictGet eqv'.components o.component_name
          = some ⟨rec.component, dateOf t, eqv.horometro, eqv.odometro⟩
      ∧ eqv'.horometro = eqv.horometro ∧ eqv'.odometro = eqv.odometro := by
  have hloop := completeLoop_found t oid s.equipment_registry o post eqv rec
    ho heq hrec pre hpre
  refine ⟨?_, ?_, ?_⟩
  · simp only [Scheduler.complete_order]
    rw [hsplit, hloop]
  · simp only [Scheduler.complete_order]
    rw [hsplit, hloop]
    rfl
  · simp only [Scheduler.complete_order]
    rw [hsplit, hloop]
    exact ⟨_, dictGet_set_self _ _ _, dictGet_set_self _ _ _, rfl, rfl⟩

/-- Witness for C4: completing `order0` on `sched4` at time 86400 (day 1)
rebaselines (E1, Amortiguadores) to horometro 550, odometro 0. -/
theorem complete_order_rebaselines_witness :
    (sched4.complete_order 86400 0).1 = Except.ok ()
  ∧ (sched4.complete_order 86400 0).2.pending_orders
      = [] ++ { order0 with status := "completada", completed_at := some 86400 } :: []
  ∧ ∃ eqv',
      dictGet (sched4.complete_order 86400 0).2.equipment_registry
        order0.equipment_id = some eqv'
      ∧ dictGet eqv'.components order0.component_name
          = some ⟨rec500.component, dateOf 86400, eq550.horometro, eq550.odometro⟩
      ∧ eqv'.horometro = eq550.horometro ∧ eqv'.odometro = eq550.odometro :=
  complete_order_rebaselines sched4 86400 0 [] [] order0 eq550 rec500
    rfl (by simp) rfl (by decide) (by decide)

/-- C8 counterexample: completing the pending order of `sched8`, whose
component "X" has no record on E1, does not surface a clean not-found
result with nothing updated — it raises `KeyError` (an exception, modelled
as an error) with the order already marked completed. -/
theorem complete_order_missing_component_cex :
    (sched8.complete_order 86400 0).1 = Except.error "KeyError"
  ∧ (sched8.complete_order 86400 0).2.pending_orders
      = [{ orderX with status := "completada", completed_at := some 86400 }]
  ∧ (sched8.complete_order 86400 0).2.equipment_registry
      = sched8.equipment_registry := by
  refine ⟨rfl, by decide, by decide⟩

/-- C8 amended: when the first order matching the id exists but the
equipment lookup or the component lookup fails, `complete_order` raises
`KeyError` after already marking the order completed; the registry is left
unchanged and no component record is rebaselined. -/
theorem complete_order_keyerror (s : Scheduler) (t : ℚ) (oid : Nat)
    (pre post : List WorkOrder) (o : WorkOrder)
    (hsplit : s.pending_orders = pre ++ o :: post)
    (hpre : ∀ p ∈ pre, p.id ≠ oid)
    (ho : o.id = oid)
    (hmiss : dictGet s.equipment_registry o.equipment_id = none
      ∨ ∃ eqv, dictGet s.equipment_registry o.equipment_id = some eqv
          ∧ dictGet eqv.components o.component_name = none) :
    (s.complete_order t oid).1 = Except.error "KeyError"
  ∧ (s.complete_order t oid).2.pending_orders
      = pre ++ { o with status := "completada", completed_at := some t } :: post
  ∧ (s.complete_order t oid).2.equipment_registry = s.equipment_registry := by
  have hloop := completeLoop_keyerror t oid s.equipment_registry o post ho hmiss pre hpre
  refine ⟨?_, ?_, ?_⟩ <;>
  · simp only [Scheduler.complete_order]
    rw [hsplit, hloop]
    try rfl

/-- Witness for C8 amended: the `sched8` scenario at completion time 100. -/
theorem complete_order_keyerror_witness :
    (sched8.complete_order 100 0).1 = Except.error "KeyError"
  ∧ (sched8.complete_order 100 0).2.pending_orders
      = [] ++ { orderX with status := "completada", completed_at := some 100 } :: []
  ∧ (sched8.complete_order 100 0).2.equipment_registry
      = sched8.equipment_registry :=
  complete_order_keyerror sched8 100 0 [] [] orderX rfl (by simp) rfl
    (Or.inr ⟨eqNoX, by decide, by decide⟩)

/-! ### `check_due_maintenance` fold lemmas -/

theorem hasPendingFor_append (p q : List WorkOrder) (e n : String) :
    hasPendingFor (p ++ q) e n = (hasPendingFor p e n || hasPendingFor q e n) := by
  unfold hasPendingFor
  exact List.any_append

theorem recStep_ext (refDate : ℤ) (now : ℚ) (eqv : Equipment)
    (acc : List WorkOrder × List WorkOrder × Nat) (r : ComponentRecord) :
    ∃ ext m, recStep refDate now eqv acc r = (acc.1 ++ ext, acc.2.1 ++ ext, m) := by
  by_cases hdue : (r.is_due refDate eqv.horometro eqv.odometro).1 = true
  · by_cases hpend : hasPendingFor acc.1 eqv.id r.component.name = true
    · exact ⟨[], acc.2.2, by simp [recStep, hdue, hpend]⟩
    · refine ⟨[mkOrder eqv.id r.component.name refDate
        (r.is_due refDate eqv.horometro eqv.odometro).2 acc.2.2 now],
        acc.2.2 + 1, ?_⟩
      simp [recStep, hdue, hpend]
  · exact ⟨[], acc.2.2, by simp [recStep, hdue]⟩

theorem foldRec_ext (refDate : ℤ) (now : ℚ) (eqv : Equipment) :
    ∀ (recs : List ComponentRecord) (acc : List WorkOrder × List WorkOrder × Nat),
    ∃ ext m, recs.foldl (recStep refDate now eqv) acc
      = (acc.1 ++ ext, acc.2.1 ++ ext, m) := by
  intro recs
  induction recs with
  | nil => exact fun acc => ⟨[], acc.2.2, by simp⟩
  | cons r rest ih =>
    intro acc
    obtain ⟨ext1, m1, h1⟩ := recStep_ext refDate now eqv acc r
    obtain ⟨ext2, m2, h2⟩ := ih (recStep refDate now eqv acc r)
    refine ⟨ext1 ++ ext2, m2, ?_⟩
    rw [List.foldl_cons, h2, h1]
    simp [List.append_assoc]

theorem eqStep_ext (refDate : ℤ) (now : ℚ)
    (acc : List WorkOrder × List WorkOrder × Nat) (eqv : Equipment) :
    ∃ ext m, eqStep refDate now acc eqv = (acc.1 ++ ext, acc.2.1 ++ ext, m) := by
  by_cases helig : eligibleStatus eqv.status = true
  · obtain ⟨ext, m, h⟩ := foldRec_ext refDate now eqv (eqv.components.map Prod.snd) acc
    exact ⟨ext, m, by simp [eqStep, helig, h]⟩
  · exact ⟨[], acc.2.2, by simp [eqStep, helig]⟩

theorem foldEq_ext (refDate : ℤ) (now : ℚ) :
    ∀ (eqs : List Equipment) (acc : List WorkOrder × List WorkOrder × Nat),
    ∃ ext m, eqs.foldl (eqStep refDate now) acc
      = (acc.1 ++ ext, acc.2.1 ++ ext, m) := by
  intro eqs
  induction eqs with
  | nil => exact fun acc => ⟨[], acc.2.2, by simp⟩
  | cons e rest ih =>
    intro acc
    obtain ⟨ext1, m1, h1⟩ := eqStep_ext refDate now acc e
    obtain ⟨ext2, m2, h2⟩ := ih (eqStep refDate now acc e)
    refine ⟨ext1 ++ ext2, m2, ?_⟩
    rw [List.foldl_cons, h2, h1]
    simp [List.append_assoc]

theorem foldRec_covers (refDate : ℤ) (now : ℚ) (eqv : Equipment) :
    ∀ (recs : List ComponentRecord) (acc : List WorkOrder × List WorkOrder × Nat),
    ∀ r ∈ recs, (r.is_due refDate eqv.horometro eqv.odometro).1 = true →
    hasPendingFor (recs.foldl (recStep refDate now eqv) acc).1
      eqv.id r.component.name = true := by
  intro recs
  induction recs with
  | nil => intro acc r hr; exact absurd hr (List.not_mem_nil r)
  | cons a rest ih =>
    intro acc r hr hdue
    rcases List.mem_cons.mp hr with hra | hr'
    · subst hra
      obtain ⟨ext, m, hext⟩ := foldRec_ext refDate now eqv rest
        (recStep refDate now eqv acc r)
      rw [List.foldl_cons, hext]
      have hstep : hasPendingFor (recStep refDate now eqv acc r).1
          eqv.id r.component.name = true := by
        by_cases hpend : hasPendingFor acc.1 eqv.id r.component.name = true
        · simp [recStep, hdue, hpend]
        · have hnew : pendPred eqv.id r.component.name
              (mkOrder eqv.id r.component.name refDate
                (r.is_due refDate eqv.horometro eqv.odometro).2 acc.2.2 now) = true := by
            simp [pendPred, mkOrder]
          have hstep2 : recStep refDate now eqv acc r
              = (acc.1 ++ [mkOrder eqv.id r.component.name refDate
                    (r.is_due refDate eqv.horometro eqv.odometro).2 acc.2.2 now],
                 acc.2.1 ++ [mkOrder eqv.id r.component.name refDate
                    (r.is_due refDate eqv.horometro eqv.odometro).2 acc.2.2 now],
                 acc.2.2 + 1) := by
            simp [recStep, hdue, hpend]
          have hone : hasPendingFor [mkOrder eqv.id r.component.name refDate
              (r.is_due refDate eqv.horometro eqv.odometro).2 acc.2.2 now]
              eqv.id r.component.name = true := by
            simp [hasPendingFor, hnew]
          simp only [hstep2]
          rw [hasPendingFor_append, hone, Bool.or_true]
      rw [hasPendingFor_append, hstep]
      rfl
    · exact ih (recStep refDate now eqv acc a) r hr' hdue

theorem foldEq_covers (refDate : ℤ) (now : ℚ) :
    ∀ (eqs : List Equipment) (acc : List WorkOrder × List WorkOrder × Nat),
    ∀ eqv ∈ eqs, eligibleStatus eqv.status = true →
    ∀ r ∈ eqv.components.map Prod.snd,
    (r.is_due refDate eqv.horometro eqv.odometro).1 = true →
    hasPendingFor (eqs.foldl (eqStep refDate now) acc).1
      eqv.id r.component.name = true := by
  intro eqs
  induction eqs with
  | nil => intro acc eqv he; exact absurd he (List.not_mem_nil eqv)
  | cons e rest ih =>
    intro acc eqv he helig r hr hdue
    rcases List.mem_cons.mp he with hee | he'
    · subst hee
      obtain ⟨ext, m, hext⟩ := foldEq_ext refDate now rest (eqStep refDate now acc eqv)
      rw [List.foldl_cons, hext]
      have hstep : hasPendingFor (eqStep refDate now acc eqv).1
          eqv.id r.component.name = true := by
        simp only [eqStep, if_pos helig]
        exact foldRec_covers refDate now eqv (eqv.components.map Prod.snd) acc r hr hdue
      rw [hasPendingFor_append, hstep]
      rfl
    · exact ih (eqStep refDate now acc e) eqv he' helig r hr hdue

theorem foldRec_stable (refDate : ℤ) (now : ℚ) (eqv : Equipment) :
    ∀ (recs : List ComponentRecord) (acc : List WorkOrder × List WorkOrder × Nat),
    (∀ r ∈ recs, (r.is_due refDate eqv.horometro eqv.odometro).1 = true →
      hasPendingFor acc.1 eqv.id r.component.name = true) →
    recs.foldl (recStep refDate now eqv) acc = acc := by
  intro recs
  induction recs with
  | nil => intro acc _; rfl
  | cons a rest ih =>
    intro acc h
    have hstep : recStep refDate now eqv acc a = acc := by
      by_cases hdue : (a.is_due refDate eqv.horometro eqv.odometro).1 = true
      · have hpend := h a (List.mem_cons_self a rest) hdue
        simp [recStep, hdue, hpend]
      · simp [recStep, hdue]
    rw [List.foldl_cons, hstep]
    exact ih acc fun r hr => h r (List.mem_cons_of_mem a hr)

theorem foldEq_stable (refDate : ℤ) (now : ℚ) :
    ∀ (eqs : List Equipment) (acc : List WorkOrder × List WorkOrder × Nat),
    (∀ eqv ∈ eqs, eligibleStatus eqv.status = true →
      ∀ r ∈ eqv.components.map Prod.snd,
      (r.is_due refDate eqv.horometro eqv.odometro).1 = true →
      hasPendingFor acc.1 eqv.id r.component.name = true) →
    eqs.foldl (eqStep refDate now) acc = acc := by
  intro eqs
  induction eqs with
  | nil => intro acc _; rfl
  | cons e rest ih =>
    intro acc h
    have hstep : eqStep refDate now acc e = acc := by
      by_cases helig : eligibleStatus e.status = true
      · simp only [eqStep, if_pos helig]
        exact foldRec_stable refDate now e (e.components.map Prod.snd) acc
          (h e (List.mem_cons_self e rest) helig)
      · simp [eqStep, helig]
    rw [List.foldl_cons, hstep]
    exact ih acc fun eqv he helig => h eqv (List.mem_cons_of_mem e he) helig

/-- C2: `check_due_maintenance` is idempotent on unchanged state — it
returns exactly the orders created in the call (the new pending list is the
old one plus them), and a second call on the resulting state with the same
reference date returns the empty list and leaves the state (in particular
the pending-order count) unchanged. -/
theorem check_due_maintenance_idempotent (s : Scheduler) (refDate : ℤ)
    (now1 now2 : ℚ) :
    (s.check_due_maintenance refDate now1).2.check_due_maintenance refDate now2
      = ([], (s.check_due_maintenance refDate now1).2)
  ∧ (s.check_due_maintenance refDate now1).2.pending_orders
      = s.pending_orders ++ (s.check_due_maintenance refDate now1).1 := by
  have hcov := foldEq_covers refDate now1 (s.equipment_registry.map Prod.snd)
    (s.pending_orders, [], s.nextId)
  obtain ⟨ext, m, hext⟩ := foldEq_ext refDate now1 (s.equipment_registry.map Prod.snd)
    (s.pending_orders, [], s.nextId)
  constructor
  · have hstab := foldEq_stable refDate now2 (s.equipment_registry.map Prod.snd)
      (((s.equipment_registry.map Prod.snd).foldl (eqStep refDate now1)
          (s.pending_orders, [], s.nextId)).1, [],
       ((s.equipment_registry.map Prod.snd).foldl (eqStep refDate now1)
          (s.pending_orders, [], s.nextId)).2.2)
      (fun eqv he helig r hr hdue => hcov eqv he helig r hr hdue)
    simp only [Scheduler.check_due_maintenance]
    rw [hstab]
  · simp only [Scheduler.check_due_maintenance]
    rw [hext]
    simp

/-! ### Pending-uniqueness lemmas -/

theorem filter_eq_nil_of_hasPendingFor_false (p : List WorkOrder) (e n : String)
    (h : hasPendingFor p e n = false) : p.filter (pendPred e n) = [] := by
  rw [List.filter_eq_nil_iff]
  intro a ha
  unfold hasPendingFor at h
  rw [List.any_eq_false] at h
  exact h a ha

theorem pendingUnique_append_new (p : List WorkOrder) (o : WorkOrder)
    (hpu : pendingUnique p)
    (hnp : hasPendingFor p o.equipment_id o.component_name = false)
    (hs : o.status = "pendiente") :
    pendingUnique (p ++ [o]) := by
  intro e' n'
  rw [List.filter_append]
  by_cases hpo : pendPred e' n' o = true
  · have hfields : o.equipment_id = e' ∧ o.component_name = n' := by
      unfold pendPred at hpo
      simp only [Bool.and_eq_true, beq_iff_eq] at hpo
      exact ⟨hpo.1.1, hpo.1.2⟩
    have hnil : p.filter (pendPred e' n') = [] := by
      apply filter_eq_nil_of_hasPendingFor_false
      rw [← hfields.1, ← hfields.2]
      exact hnp
    rw [hnil]
    simp [hpo]
  · have hpo' : pendPred e' n' o = false := by simpa using hpo
    simp only [List.filter_cons, List.filter_nil, hpo', cond_false]
    simpa using hpu e' n'

theorem recStep_pu (refDate : ℤ) (now : ℚ) (eqv : Equipment)
    (acc : List WorkOrder × List WorkOrder × Nat) (r : ComponentRecord)
    (h : pendingUnique acc.1) : pendingUnique (recStep refDate now eqv acc r).1 := by
  by_cases hdue : (r.is_due refDate eqv.horometro eqv.odometro).1 = true
  · by_cases hpend : hasPendingFor acc.1 eqv.id r.component.name = true
    · have : recStep refDate now eqv acc r = acc := by simp [recStep, hdue, hpend]
      rw [this]; exact h
    · have hpend' : hasPendingFor acc.1 eqv.id r.component.name = false := by
        simpa using hpend
      have hstep : (recStep refDate now eqv acc r).1
          = acc.1 ++ [mkOrder eqv.id r.component.name refDate
              (r.is_due refDate eqv.horometro eqv.odometro).2 acc.2.2 now] := by
        simp [recStep, hdue, hpend]
      rw [hstep]
      exact pendingUnique_append_new acc.1 _ h hpend' rfl
  · have : recStep refDate now eqv acc r = acc := by simp [recStep, hdue]
    rw [this]; exact h

theorem foldRec_pu (refDate : ℤ) (now : ℚ) (eqv : Equipment) :
    ∀ (recs : List ComponentRecord) (acc : List WorkOrder × List WorkOrder × Nat),
    pendingUnique acc.1 →
    pendingUnique ((recs.foldl (recStep refDate now eqv) acc)).1 := by
  intro recs
  induction recs with
  | nil => exact fun acc h => h
  | cons a rest ih =>
    intro acc h
    rw [List.foldl_cons]
    exact ih _ (recStep_pu refDate now eqv acc a h)

theorem foldEq_pu (refDate : ℤ) (now : ℚ) :
    ∀ (eqs : List Equipment) (acc : List WorkOrder × List WorkOrder × Nat),
    pendingUnique acc.1 →
    pendingUnique ((eqs.foldl (eqStep refDate now) acc)).1 := by
  intro eqs
  induction eqs with
  | nil => exact fun acc h => h
  | cons e rest ih =>
    intro acc h
    rw [List.foldl_cons]
    apply ih
    by_cases helig : eligibleStatus e.status = true
    · simp only [eqStep, if_pos helig]
      exact foldRec_pu refDate now e (e.components.map Prod.snd) acc h
    · simpa [eqStep, helig] using h

theorem recStep_fresh (refDate : ℤ) (now : ℚ) (eqv : Equipment)
    (base : List WorkOrder) (acc : List WorkOrder × List WorkOrder × Nat)
    (r : ComponentRecord)
    (hbase : ∃ ext, acc.1 = base ++ ext)
    (hfresh : ∀ o ∈ acc.2.1, hasPendingFor base o.equipment_id o.component_name = false) :
    (∃ ext, (recStep refDate now eqv acc r).1 = base ++ ext)
  ∧ ∀ o ∈ (recStep refDate now eqv acc r).2.1,
      hasPendingFor base o.equipment_id o.component_name = false := by
  obtain ⟨ext, hext⟩ := hbase
  by_cases hdue : (r.is_due refDate eqv.horometro eqv.odometro).1 = true
  · by_cases hpend : hasPendingFor acc.1 eqv.id r.component.name = true
    · have : recStep refDate now eqv acc r = acc := by simp [recStep, hdue, hpend]
      rw [this]; exact ⟨⟨ext, hext⟩, hfresh⟩
    · have hpend' : hasPendingFor acc.1 eqv.id r.component.name = false := by
        simpa using hpend
      have hbf : hasPendingFor base eqv.id r.component.name = false := by
        rw [hext, hasPendingFor_append] at hpend'
        exact (Bool.or_eq_false_iff.mp hpend').1
      have hstep : recStep refDate now eqv acc r
          = (acc.1 ++ [mkOrder eqv.id r.component.name refDate
                (r.is_due refDate eqv.horometro eqv.odometro).2 acc.2.2 now],
             acc.2.1 ++ [mkOrder eqv.id r.component.name refDate
                (r.is_due refDate eqv.horometro eqv.odometro).2 acc.2.2 now],
             acc.2.2 + 1) := by
        simp [recStep, hdue, hpend]
      rw [hstep]
      constructor
      · exact ⟨ext ++ [_], by rw [hext, List.append_assoc]⟩
      · intro o ho
        rcases List.mem_append.mp ho with ho' | ho'
        · exact hfresh o ho'
        · have : o = mkOrder eqv.id r.component.name refDate
              (r.is_due refDate eqv.horometro eqv.odometro).2 acc.2.2 now :=
            List.mem_singleton.mp ho'
          rw [this]
          exact hbf
  · have : recStep refDate now eqv acc r = acc := by simp [recStep, hdue]
    rw [this]; exact ⟨⟨ext, hext⟩, hfresh⟩

theorem foldRec_fresh (refDate : ℤ) (now : ℚ) (eqv : Equipment)
    (base : List WorkOrder) :
    ∀ (recs : List ComponentRecord) (acc : List WorkOrder × List WorkOrder × Nat),
    (∃ ext, acc.1 = base ++ ext) →
    (∀ o ∈ acc.2.1, hasPendingFor base o.equipment_id o.component_name = false) →
    (∃ ext, (recs.foldl (recStep refDate now eqv) acc).1 = base ++ ext)
  ∧ ∀ o ∈ (recs.foldl (recStep refDate now eqv) acc).2.1,
      hasPendingFor base o.equipment_id o.component_name = false := by
  intro recs
  induction recs with
  | nil => exact fun acc h1 h2 => ⟨h1, h2⟩
  | cons a rest ih =>
    intro acc h1 h2
    rw [List.foldl_cons]
    obtain ⟨h1', h2'⟩ := recStep_fresh refDate now eqv base acc a h1 h2
    exact ih _ h1' h2'

theorem foldEq_fresh (refDate : ℤ) (now : ℚ) (base : List WorkOrder) :
    ∀ (eqs : List Equipment) (acc : List WorkOrder × List WorkOrder × Nat),
    (∃ ext, acc.1 = base ++ ext) →
    (∀ o ∈ acc.2.1, hasPendingFor base o.equipment_id o.component_name = false) →
    (∃ ext, (eqs.foldl (eqStep refDate now) acc).1 = base ++ ext)
  ∧ ∀ o ∈ (eqs.foldl (eqStep refDate now) acc).2.1,
      hasPendingFor base o.equipment_id o.component_name = false := by
  intro eqs
  induction eqs with
  | nil => exact fun acc h1 h2 => ⟨h1, h2⟩
  | cons e rest ih =>
    intro acc h1 h2
    rw [List.foldl_cons]
    by_cases helig : eligibleStatus e.status = true
    · have hstep : eqStep refDate now acc e
          = (e.components.map Prod.snd).foldl (recStep refDate now e) acc := by
        simp [eqStep, helig]
      obtain ⟨h1', h2'⟩ := foldRec_fresh refDate now e base
        (e.components.map Prod.snd) acc h1 h2
      rw [hstep]
      exact ih _ h1' h2'
    · have hstep : eqStep refDate now acc e = acc := by simp [eqStep, helig]
      rw [hstep]
      exact ih acc h1 h2

theorem completeLoop_filter_le (t : ℚ) (oid : Nat)
    (reg : List (String × Equipment)) (e n : String) :
    ∀ pending : List WorkOrder,
    ((completeLoop t oid reg pending).2.1.filter (pendPred e n)).length
      ≤ (pending.filter (pendPred e n)).length := by
  intro pending
  induction pending with
  | nil => exact Nat.le_refl 0
  | cons o rest ih =>
    by_cases ho : o.id = oid
    · have hres : (completeLoop t oid reg (o :: rest)).2.1
          = o.mark_completed t :: rest := by
        simp only [completeLoop, if_pos ho]
        cases dictGet reg o.equipment_id with
        | none => rfl
        | some eqv =>
          dsimp only
          cases dictGet eqv.components o.component_name with
          | none => rfl
          | some rec => rfl
      have hmc : pendPred e n (o.mark_completed t) = false := by
        simp [pendPred, WorkOrder.mark_completed]
      rw [hres, List.filter_cons, List.filter_cons, hmc]
      cases hpo : pendPred e n o <;> simp [hpo]
    · have hres : (completeLoop t oid reg (o :: rest)).2.1
          = o :: (completeLoop t oid reg rest).2.1 := by
        simp only [completeLoop, if_neg ho]
      rw [hres, List.filter_cons, List.filter_cons]
      cases hpo : pendPred e n o <;> (try simp [hpo]) <;> omega

/-- C3: the at-most-one-pending-order-per-(equipment, component) invariant
is preserved by `check_due_maintenance` and by `complete_order`, and
`check_due_maintenance` never creates an order for a pair that already had
a pending order. -/
theorem scheduler_pending_unique_invariant :
    (∀ (s : Scheduler) (refDate : ℤ) (now : ℚ),
      pendingUnique s.pending_orders →
      pendingUnique (s.check_due_maintenance refDate now).2.pending_orders
      ∧ ∀ o ∈ (s.check_due_maintenance refDate now).1,
          hasPendingFor s.pending_orders o.equipment_id o.component_name = false)
  ∧ ∀ (s : Scheduler) (t : ℚ) (oid : Nat),
      pendingUnique s.pending_orders →
      pendingUnique (s.complete_order t oid).2.pending_orders := by
  constructor
  · intro s refDate now h
    constructor
    · have := foldEq_pu refDate now (s.equipment_registry.map Prod.snd)
        (s.pending_orders, [], s.nextId) h
      simpa only [Scheduler.check_due_maintenance] using this
    · have hfr := foldEq_fresh refDate now s.pending_orders
        (s.equipment_registry.map Prod.snd) (s.pending_orders, [], s.nextId)
        ⟨[], by simp⟩ (by intro o ho; exact absurd ho (List.not_mem_nil o))
      intro o ho
      exact hfr.2 o (by simpa only [Scheduler.check_due_maintenance] using ho)
  · intro s t oid h
    intro e n
    have hle := completeLoop_filter_le t oid s.equipment_registry e n s.pending_orders
    have hres : (s.complete_order t oid).2.pending_orders
        = (completeLoop t oid s.equipment_registry s.pending_orders).2.1 := rfl
    rw [hres]
    exact le_trans hle (h e n)

/-- Witness for C3: the invariant applied to the concrete states `sched1`
(empty pending list) and `sched4` (one pending order). -/
theorem scheduler_pending_unique_invariant_witness :
    pendingUnique ((sched1.check_due_maintenance 0 0).2.pending_orders)
  ∧ pendingUnique ((sched4.complete_order 86400 0).2.pending_orders) :=
  ⟨(scheduler_pending_unique_invariant.1 sched1 0 0
      (fun e n => by simp [sched1])).1,
   scheduler_pending_unique_invariant.2 sched4 86400 0
      (fun e n => List.length_filter_le _ _)⟩

end Maint
